import Mathlib

/-!
Verification of the rclone-move daemon (src/entrypoint.py).

Paths are modelled as lists of components (`PathC`); machine integers are
`Nat`/`Int`; fallible operations return `Option`/`Except`.  Each definition
is a shallow embedding of the correspondingly named Python function.
-/

namespace RcloneMove

/-- One destination object as reported by `rclone lsjson` (class `RcloneItem`
in entrypoint.py): path, size in bytes, modification time.  `ModTime` is the
timestamp string rclone prints, modelled as its list of characters: Python
compares those strings lexicographically, which is exactly the lexicographic
order on the character list. -/
structure RcloneItem where
  Path : String
  Size : Nat
  ModTime : List Char
deriving DecidableEq

/-- Total usage of a catalog: `sum(f['Size'] for f in files)`. -/
def usage (files : List RcloneItem) : Nat :=
  (files.map (·.Size)).sum

/-- Fold step of Python `min(files, key=lambda f: f['ModTime'])`: the running
minimum is replaced only on a strictly smaller key, so the first entry wins
ties. -/
def pyMinAux (f : RcloneItem) (fs : List RcloneItem) : RcloneItem :=
  fs.foldl (fun acc g => if g.ModTime < acc.ModTime then g else acc) f

/-- Python `min` over a list of catalog entries keyed by `ModTime`;
`none` models the `ValueError` raised on an empty sequence. -/
def pyMin : List RcloneItem → Option RcloneItem
  | [] => none
  | f :: fs => some (pyMinAux f fs)

/-- Remote operations performed by `_cleanup`, in the order issued:
the single `rclone_ls(DEST)` listing, then per evicted entry
`rclone_rcat('', …)` (zero-byte overwrite), `rclone_touch` (purge/compaction)
and `rclone_delete`. -/
inductive Event where
  | listDest
  | zero (path : String)
  | purge (path : String)
  | del (path : String)
deriving DecidableEq

/-- The event block `[zero p, purge p, del p]` emitted for each evicted path,
concatenated in eviction order. -/
def tripleEvents : List String → List Event
  | [] => []
  | p :: ps => Event.zero p :: Event.purge p :: Event.del p :: tripleEvents ps

/-- The `while True` loop of `_cleanup` (entrypoint.py lines 138-150), with
fuel making the recursion structural.  Each iteration: if
`usage < size_limit` break with the remaining catalog; otherwise take
`min(files, key=ModTime)` — `none` (the raised `ValueError` on an empty
catalog) aborts the pass — emit the zero/purge/delete events for the chosen
entry and continue on `files.remove(oldest)`.  The returned pair is the
event trace and `some` final catalog (or `none` for the raise). -/
def cleanupLoopFuel : Nat → Int → List RcloneItem → List Event × Option (List RcloneItem)
  | 0, _, _ => ([], none)
  | fuel + 1, limit, files =>
    if (usage files : Int) < limit then ([], some files)
    else
      match pyMin files with
      | none => ([], none)
      | some oldest =>
        let rest := cleanupLoopFuel fuel limit (files.erase oldest)
        (Event.zero oldest.Path :: Event.purge oldest.Path :: Event.del oldest.Path :: rest.1,
         rest.2)

/-- The sequence of paths evicted by the `_cleanup` loop, same recursion as
`cleanupLoopFuel`. -/
def evictedFuel : Nat → Int → List RcloneItem → List String
  | 0, _, _ => []
  | fuel + 1, limit, files =>
    if (usage files : Int) < limit then []
    else
      match pyMin files with
      | none => []
      | some oldest => oldest.Path :: evictedFuel fuel limit (files.erase oldest)

/-- One `_cleanup` pass over an already-listed catalog `files` with a
configured `RCLONE_SIZE_LIMIT` of `limit`: the single listing event followed
by the loop.  `files.length + 1` fuel is enough: every iteration that does
not stop removes one entry. -/
def cleanupPass (limit : Int) (files : List RcloneItem) : List Event × Option (List RcloneItem) :=
  let r := cleanupLoopFuel (files.length + 1) limit files
  (Event.listDest :: r.1, r.2)

/-- Paths evicted by one `_cleanup` pass. -/
def evictedPaths (limit : Int) (files : List RcloneItem) : List String :=
  evictedFuel (files.length + 1) limit files

lemma pyMinAux_mem (f : RcloneItem) (fs : List RcloneItem) :
    pyMinAux f fs ∈ f :: fs := by
  induction fs generalizing f with
  | nil => simp [pyMinAux]
  | cons h t ih =>
    have hstep : pyMinAux f (h :: t)
        = pyMinAux (if h.ModTime < f.ModTime then h else f) t := rfl
    rw [hstep]
    have hm := ih (if h.ModTime < f.ModTime then h else f)
    rw [List.mem_cons] at hm
    rcases hm with hm | hm
    · rw [hm]
      by_cases hc : h.ModTime < f.ModTime
      · rw [if_pos hc]
        exact List.mem_cons_of_mem f (List.mem_cons_self h t)
      · rw [if_neg hc]
        exact List.mem_cons_self f (h :: t)
    · exact List.mem_cons_of_mem f (List.mem_cons_of_mem h hm)

lemma pyMinAux_le (f : RcloneItem) (fs : List RcloneItem) :
    ∀ g ∈ f :: fs, (pyMinAux f fs).ModTime ≤ g.ModTime := by
  induction fs generalizing f with
  | nil =>
    intro g hg
    simp at hg
    simp [pyMinAux, hg]
  | cons h t ih =>
    intro g hg
    rw [List.mem_cons, List.mem_cons] at hg
    have hstep : pyMinAux f (h :: t)
        = pyMinAux (if h.ModTime < f.ModTime then h else f) t := rfl
    rw [hstep]
    have hself : (pyMinAux (if h.ModTime < f.ModTime then h else f) t).ModTime
        ≤ (if h.ModTime < f.ModTime then h else f).ModTime :=
      ih _ _ (by simp)
    rcases hg with hg | hg | hg
    · subst hg
      refine le_trans hself ?_
      by_cases hc : h.ModTime < g.ModTime
      · rw [if_pos hc]
        exact le_of_lt hc
      · rw [if_neg hc]
    · subst hg
      refine le_trans hself ?_
      by_cases hc : g.ModTime < f.ModTime
      · rw [if_pos hc]
      · rw [if_neg hc]
        exact le_of_not_lt hc
    · exact ih _ g (List.mem_cons_of_mem _ hg)

lemma pyMin_mem {files : List RcloneItem} {o : RcloneItem}
    (h : pyMin files = some o) : o ∈ files := by
  cases files with
  | nil => simp [pyMin] at h
  | cons f fs =>
    simp [pyMin] at h
    subst h
    exact pyMinAux_mem f fs

lemma pyMin_le {files : List RcloneItem} {o : RcloneItem}
    (h : pyMin files = some o) : ∀ g ∈ files, o.ModTime ≤ g.ModTime := by
  cases files with
  | nil => simp [pyMin] at h
  | cons f fs =>
    simp [pyMin] at h
    subst h
    exact pyMinAux_le f fs

lemma usage_cons (a : RcloneItem) (l : List RcloneItem) :
    usage (a :: l) = a.Size + usage l := by
  simp [usage]

lemma usage_erase (a : RcloneItem) (l : List RcloneItem) (h : a ∈ l) :
    usage l = a.Size + usage (l.erase a) := by
  have hp : l.Perm (a :: l.erase a) := List.perm_cons_erase h
  have := (hp.map (·.Size)).sum_eq
  simpa [usage, usage_cons] using this

lemma length_erase_of_mem {a : RcloneItem} {l : List RcloneItem} (h : a ∈ l) :
    (l.erase a).length = l.length - 1 :=
  List.length_erase_of_mem h

/-- With `usage files` already below the limit, the loop stops at once:
no events, no evictions, catalog unchanged. -/
lemma cleanupLoopFuel_below (fuel : Nat) (limit : Int) (files : List RcloneItem)
    (h : (usage files : Int) < limit) :
    cleanupLoopFuel (fuel + 1) limit files = ([], some files) := by
  simp [cleanupLoopFuel, h]

lemma evictedFuel_below (fuel : Nat) (limit : Int) (files : List RcloneItem)
    (h : (usage files : Int) < limit) :
    evictedFuel (fuel + 1) limit files = [] := by
  simp [evictedFuel, h]

/-- With a strictly positive limit and enough fuel, the loop terminates
normally with a catalog whose usage is below the limit. -/
lemma cleanupLoopFuel_terminates (limit : Int) (hpos : 0 < limit) :
    ∀ n : Nat, ∀ files : List RcloneItem, files.length ≤ n →
      ∃ r, (cleanupLoopFuel (n + 1) limit files).2 = some r ∧ (usage r : Int) < limit := by
  intro n
  induction n with
  | zero =>
    intro files hlen
    have hnil : files = [] := List.length_eq_zero.mp (Nat.le_zero.mp hlen)
    subst hnil
    have h0 : (usage ([] : List RcloneItem) : Int) < limit := by
      simpa [usage] using hpos
    exact ⟨[], by simp [cleanupLoopFuel, h0], h0⟩
  | succ m ih =>
    intro files hlen
    by_cases h : (usage files : Int) < limit
    · exact ⟨files, by simp [cleanupLoopFuel, h], h⟩
    · cases hf : files with
      | nil =>
        exfalso
        apply h
        subst hf
        simpa [usage] using hpos
      | cons f fs =>
        subst hf
        have hmin : pyMin (f :: fs) = some (pyMinAux f fs) := rfl
        have hmem : pyMinAux f fs ∈ f :: fs := pyMinAux_mem f fs
        have hlen2 : ((f :: fs).erase (pyMinAux f fs)).length ≤ m := by
          rw [length_erase_of_mem hmem, List.length_cons]
          rw [List.length_cons] at hlen
          omega
        obtain ⟨r, hr, hru⟩ := ih ((f :: fs).erase (pyMinAux f fs)) hlen2
        refine ⟨r, ?_, hru⟩
        simp [cleanupLoopFuel, h, hmin]
        exact hr

/-- With a non-positive limit the usage test never fires, the catalog is
drained entirely and the loop hits Python `min` on an empty sequence:
the pass raises instead of terminating. -/
lemma cleanupLoopFuel_nonpos (limit : Int) (hnp : limit ≤ 0) :
    ∀ n : Nat, ∀ files : List RcloneItem, files.length ≤ n →
      (cleanupLoopFuel (n + 1) limit files).2 = none := by
  intro n
  induction n with
  | zero =>
    intro files hlen
    have hnil : files = [] := List.length_eq_zero.mp (Nat.le_zero.mp hlen)
    subst hnil
    have h : ¬ ((usage ([] : List RcloneItem) : Int) < limit) := by
      simp [usage]
      omega
    simp [cleanupLoopFuel, h, pyMin]
  | succ m ih =>
    intro files hlen
    have h : ¬ ((usage files : Int) < limit) := by
      have : (0 : Int) ≤ (usage files : Int) := Int.ofNat_nonneg _
      omega
    cases hf : files with
    | nil =>
      subst hf
      simp [cleanupLoopFuel, h, pyMin]
    | cons f fs =>
      subst hf
      have hmin : pyMin (f :: fs) = some (pyMinAux f fs) := rfl
      have hmem : pyMinAux f fs ∈ f :: fs := pyMinAux_mem f fs
      have hlen2 : ((f :: fs).erase (pyMinAux f fs)).length ≤ m := by
        rw [length_erase_of_mem hmem, List.length_cons]
        rw [List.length_cons] at hlen
        omega
      simp [cleanupLoopFuel, h, hmin]
      exact ih _ hlen2

/-- The event trace of the loop is exactly the zero/purge/delete triples of
the evicted paths, in order. -/
lemma cleanupLoopFuel_trace (limit : Int) :
    ∀ fuel : Nat, ∀ files : List RcloneItem,
      (cleanupLoopFuel fuel limit files).1 = tripleEvents (evictedFuel fuel limit files) := by
  intro fuel
  induction fuel with
  | zero => intro files; rfl
  | succ m ih =>
    intro files
    by_cases h : (usage files : Int) < limit
    · simp [cleanupLoopFuel, evictedFuel, h, tripleEvents]
    · cases hf : pyMin files with
      | none => simp [cleanupLoopFuel, evictedFuel, h, hf, tripleEvents]
      | some oldest =>
        simp [cleanupLoopFuel, evictedFuel, h, hf, tripleEvents]
        exact ih _

lemma tripleEvents_no_listDest : ∀ ps : List String, Event.listDest ∉ tripleEvents ps := by
  intro ps
  induction ps with
  | nil => simp [tripleEvents]
  | cons p t ih => simp [tripleEvents, ih]


/-- Concrete destination catalog whose oldest entry has size 0.  Together
with a configured limit of 0 it refutes claim C1 as stated.  A limit of 0 is
reachable: `environ.get('RCLONE_SIZE_LIMIT')` returns the non-empty string
`'0'`, which passes the `if not size_limit` guard, and `int('0') = 0` then
reaches the loop. -/
def cexFiles : List RcloneItem :=
  [{ Path := "a", Size := 0, ModTime := "2020-01-01".toList },
   { Path := "b", Size := 5, ModTime := "2021-01-01".toList }]

/-- Claim C1 as stated is false on the code: with quota 0 < total usage 5,
the first eviction step removes the oldest entry (size 0) without strictly
decreasing usage, and the pass never terminates normally — after draining the
catalog it raises `ValueError` from `min()` on an empty sequence (`none`). -/
theorem cleanup_claim_cex :
    (0 : Int) < (usage cexFiles : Int)
    ∧ pyMin cexFiles = some { Path := "a", Size := 0, ModTime := "2020-01-01".toList }
    ∧ usage (cexFiles.erase { Path := "a", Size := 0, ModTime := "2020-01-01".toList }) = usage cexFiles
    ∧ (cleanupPass 0 cexFiles).2 = none := by
  decide

/-- C1 (amended): for a strictly positive configured quota, the `_cleanup`
pass terminates with a catalog of usage < quota (in particular the empty
catalog when everything was evicted); it evicts nothing when usage is already
below the quota; and each eviction step removes the entry of minimal
`ModTime`, never increasing usage and strictly decreasing it whenever that
entry has positive size. -/
theorem cleanup_quota_spec (limit : Int) (files : List RcloneItem) (hpos : 0 < limit) :
    (∃ r, (cleanupPass limit files).2 = some r ∧ (usage r : Int) < limit)
    ∧ ((usage files : Int) < limit →
        (cleanupPass limit files).2 = some files ∧ evictedPaths limit files = [])
    ∧ (∀ o, pyMin files = some o →
        (∀ g ∈ files, o.ModTime ≤ g.ModTime)
        ∧ usage (files.erase o) ≤ usage files
        ∧ (0 < o.Size → usage (files.erase o) < usage files)) := by
  refine ⟨?_, ?_, ?_⟩
  · obtain ⟨r, hr, hru⟩ :=
      cleanupLoopFuel_terminates limit hpos files.length files (le_refl _)
    exact ⟨r, by simpa [cleanupPass] using hr, hru⟩
  · intro h
    constructor
    · simp [cleanupPass, cleanupLoopFuel_below _ _ _ h]
    · simp [evictedPaths, evictedFuel_below _ _ _ h]
  · intro o ho
    have hmem : o ∈ files := pyMin_mem ho
    have heq := usage_erase o files hmem
    exact ⟨pyMin_le ho, by omega, fun hs => by omega⟩

/-- Witness of `cleanup_quota_spec` at limit 10 over a catalog of usage 7:
the pass keeps the catalog and evicts nothing. -/
theorem cleanup_quota_spec_w :
    (cleanupPass 10 [{ Path := "c", Size := 7, ModTime := "2022-02-02".toList }]).2
        = some [{ Path := "c", Size := 7, ModTime := "2022-02-02".toList }]
    ∧ evictedPaths 10 [{ Path := "c", Size := 7, ModTime := "2022-02-02".toList }] = [] :=
  (cleanup_quota_spec 10 [{ Path := "c", Size := 7, ModTime := "2022-02-02".toList }]
      (by decide)).2.1 (by decide)

/-- C6: the trace of one `_cleanup` pass is the single destination listing
followed, for each evicted path in order, by zero-byte overwrite, then
purge/compaction (`rclone touch`), then delete; the listing event occurs
exactly once, before any eviction, and usage is recomputed only from the
in-memory list (the loop issues no further listing). -/
theorem cleanup_trace_spec (limit : Int) (files : List RcloneItem) :
    (cleanupPass limit files).1
        = Event.listDest :: tripleEvents (evictedPaths limit files)
    ∧ (cleanupPass limit files).1.count Event.listDest = 1 := by
  have h := cleanupLoopFuel_trace limit (files.length + 1) files
  constructor
  · simp [cleanupPass, evictedPaths, h]
  · simp [cleanupPass, evictedPaths, h, List.count_cons]
    rw [List.count_eq_zero]
    exact tripleEvents_no_listDest _

/-- C10: with a strictly positive configured limit the pass always terminates
normally (the empty-catalog usage 0 exits the loop before any `min` call on
an empty list); with limit 0 or negative, the usage test can never stop the
loop, so a drained (or initially empty) catalog reaches `min()` on an empty
sequence and the pass raises (`none`) instead of terminating. -/
theorem cleanup_limit_spec (limit : Int) (files : List RcloneItem) :
    (0 < limit → ∃ r, (cleanupPass limit files).2 = some r)
    ∧ (limit ≤ 0 → (cleanupPass limit files).2 = none) := by
  constructor
  · intro hpos
    obtain ⟨r, hr, _⟩ :=
      cleanupLoopFuel_terminates limit hpos files.length files (le_refl _)
    exact ⟨r, by simpa [cleanupPass] using hr⟩
  · intro hnp
    have := cleanupLoopFuel_nonpos limit hnp files.length files (le_refl _)
    simpa [cleanupPass] using this

/-- Witness of `cleanup_limit_spec`: a positive limit terminates on a
one-entry catalog; limit 0 raises on the same catalog once drained. -/
theorem cleanup_limit_spec_w :
    (∃ r, (cleanupPass 3 [{ Path := "a", Size := 5, ModTime := "2020-01-01".toList }]).2 = some r)
    ∧ (cleanupPass 0 [{ Path := "a", Size := 5, ModTime := "2020-01-01".toList }]).2 = none :=
  ⟨(cleanup_limit_spec 3 [{ Path := "a", Size := 5, ModTime := "2020-01-01".toList }]).1 (by decide),
   (cleanup_limit_spec 0 [{ Path := "a", Size := 5, ModTime := "2020-01-01".toList }]).2 (by decide)⟩

/-- A staging-tree path, modelled as its list of components
(`os.path` separators split off). -/
abbrev PathC := List String

/-- Python dict membership-plus-access
`f in prev_file_sizes and prev_file_sizes[f] == size`, as lookup in an
association list (dict keys are unique). -/
def lookupSz (k : PathC) : List (PathC × Nat) → Option Nat
  | [] => none
  | e :: rest => if e.1 = k then some e.2 else lookupSz k rest

/-- The settled-set computation of the main loop (entrypoint.py lines
197-201): a current file is kept iff its path occurs in the previous
snapshot with the same size. -/
def settledOf (prev cur : List (PathC × Nat)) : List (PathC × Nat) :=
  cur.filter (fun e => decide (lookupSz e.1 prev = some e.2))

/-- Snapshots come from Python dicts, whose keys are unique. -/
def keysNodup (l : List (PathC × Nat)) : Prop :=
  (l.map Prod.fst).Nodup

instance (l : List (PathC × Nat)) : Decidable (keysNodup l) := by
  unfold keysNodup
  infer_instance

lemma lookupSz_self {cur : List (PathC × Nat)} (hnd : keysNodup cur) :
    ∀ p s, (p, s) ∈ cur → lookupSz p cur = some s := by
  induction cur with
  | nil => intro p s h; simp at h
  | cons e rest ih =>
    intro p s h
    unfold keysNodup at hnd
    rw [List.map_cons, List.nodup_cons] at hnd
    have hkey : e.1 ∉ rest.map Prod.fst := hnd.1
    have hnd2 : keysNodup rest := hnd.2
    rw [List.mem_cons] at h
    rcases h with h | h
    · rw [← h]
      simp [lookupSz]
    · have hne : e.1 ≠ p := by
        intro hc
        apply hkey
        rw [hc]
        exact List.mem_map.mpr ⟨(p, s), h, rfl⟩
      simp [lookupSz, hne]
      exact ih hnd2 p s h

lemma mem_settledOf {prev cur : List (PathC × Nat)} {p : PathC} {s : Nat} :
    (p, s) ∈ settledOf prev cur ↔ (p, s) ∈ cur ∧ lookupSz p prev = some s := by
  unfold settledOf
  rw [List.mem_filter]
  simp

/-- C2: a current file is settled iff it occurs in the previous snapshot
with identical size; consequently two identical snapshots settle every file,
and a file whose size changed since the previous snapshot is excluded. -/
theorem settled_spec (prev cur : List (PathC × Nat)) (hnd : keysNodup cur) :
    (∀ p s, (p, s) ∈ settledOf prev cur ↔ (p, s) ∈ cur ∧ lookupSz p prev = some s)
    ∧ settledOf cur cur = cur
    ∧ (∀ p s t, (p, s) ∈ cur → lookupSz p prev = some t → t ≠ s →
        (p, s) ∉ settledOf prev cur) := by
  refine ⟨fun p s => mem_settledOf, ?_, ?_⟩
  · unfold settledOf
    rw [List.filter_eq_self]
    intro e he
    exact decide_eq_true (lookupSz_self hnd e.1 e.2 he)
  · intro p s t hmem hlk hne hset
    have := (mem_settledOf.mp hset).2
    rw [hlk] at this
    exact hne (Option.some.inj this)

/-- Witness of `settled_spec` on concrete snapshots: an unchanged file is
settled, identical snapshots settle everything, and a size change excludes
the file. -/
theorem settled_spec_w :
    settledOf [(["a"], 1), (["b"], 2)] [(["a"], 1), (["b"], 2)]
      = [(["a"], 1), (["b"], 2)] :=
  (settled_spec [(["a"], 1), (["b"], 2)] [(["a"], 1), (["b"], 2)] (by decide)).2.1

/-- The transfer batch handed to `rclone_move`: `none` models Python
`include_files = None` (move everything), `some fs` an explicit include
list. -/
inductive Batch where
  | all
  | subset (files : List PathC)
deriving DecidableEq

/-- Batch selection of the main loop (entrypoint.py lines 203-217), for a
non-empty settled set: probe which settled files already exist at the
destination (`get_existing_files` checks each file independently and keeps
the input order); if any exist, restrict the include list to those; then
promote to moving everything when the include list is as long as the whole
current snapshot (`len(include_files) == len(new_file_sizes)`). -/
def selectBatch (ex : PathC → Bool) (settledFiles : List PathC) (total : Nat) : Batch :=
  let existing := settledFiles.filter ex
  let includeFiles := if existing.isEmpty then settledFiles else existing
  if includeFiles.length = total then Batch.all else Batch.subset includeFiles

/-- The include list chosen before the promotion-to-All test: the settled
files existing at the destination if any, otherwise the full settled set. -/
def chosenInclude (ex : PathC → Bool) (settledFiles : List PathC) : List PathC :=
  if (settledFiles.filter ex).isEmpty then settledFiles else settledFiles.filter ex

lemma selectBatch_eq (ex : PathC → Bool) (settledFiles : List PathC) (total : Nat) :
    selectBatch ex settledFiles total
      = if (chosenInclude ex settledFiles).length = total then Batch.all
        else Batch.subset (chosenInclude ex settledFiles) := rfl

lemma chosenInclude_sublist (ex : PathC → Bool) (settledFiles : List PathC) :
    (chosenInclude ex settledFiles).Sublist settledFiles := by
  unfold chosenInclude
  by_cases he : (settledFiles.filter ex).isEmpty
  · rw [if_pos he]
  · rw [if_neg he]
    exact List.filter_sublist _

/-- C3: with a non-empty settled set drawn (without duplicates) from the
current snapshot — if a strict non-empty subset of it exists at the
destination the batch is exactly that subset; if none of it exists the batch
is the full settled set (promoted to All when it is as long as the
snapshot); and the batch is All exactly when the chosen include list covers
every file of the current snapshot. -/
theorem batch_selection_spec (ex : PathC → Bool) (settledFiles cur : List PathC)
    (hnd : cur.Nodup) (hsub : settledFiles.Sublist cur) (_hne : settledFiles ≠ []) :
    (settledFiles.filter ex ≠ [] → settledFiles.filter ex ≠ settledFiles →
        selectBatch ex settledFiles cur.length = Batch.subset (settledFiles.filter ex))
    ∧ (settledFiles.filter ex = [] →
        selectBatch ex settledFiles cur.length
          = if settledFiles.length = cur.length then Batch.all
            else Batch.subset settledFiles)
    ∧ (selectBatch ex settledFiles cur.length = Batch.all ↔
        ∀ f ∈ cur, f ∈ chosenInclude ex settledFiles) := by
  have hfsub : (settledFiles.filter ex).Sublist settledFiles := List.filter_sublist _
  have hchosen : (chosenInclude ex settledFiles).Sublist cur :=
    (chosenInclude_sublist ex settledFiles).trans hsub
  refine ⟨?_, ?_, ?_⟩
  · intro hex hstrict
    have hemp : (settledFiles.filter ex).isEmpty = false := by
      cases hfe : settledFiles.filter ex with
      | nil => exact absurd hfe hex
      | cons a t => simp [hfe]
    have hch : chosenInclude ex settledFiles = settledFiles.filter ex := by
      unfold chosenInclude
      rw [hemp]
      rfl
    have hlt : (settledFiles.filter ex).length < settledFiles.length := by
      rcases Nat.lt_or_ge (settledFiles.filter ex).length settledFiles.length with h | h
      · exact h
      · exact absurd (hfsub.eq_of_length (le_antisymm hfsub.length_le h)) hstrict
    have hlen : (chosenInclude ex settledFiles).length ≠ cur.length := by
      have := hsub.length_le
      rw [hch]
      omega
    rw [selectBatch_eq, if_neg hlen, hch]
  · intro hex
    have hch : chosenInclude ex settledFiles = settledFiles := by
      unfold chosenInclude
      rw [hex]
      rfl
    rw [selectBatch_eq, hch]
  · constructor
    · intro hall f hf
      have hlen : (chosenInclude ex settledFiles).length = cur.length := by
        by_contra hc
        rw [selectBatch_eq, if_neg hc] at hall
        cases hall
      rw [hchosen.eq_of_length hlen]
      exact hf
    · intro hcov
      have hsubset : cur ⊆ chosenInclude ex settledFiles := fun f hf => hcov f hf
      have hsp := List.subperm_of_subset hnd hsubset
      have hlen : (chosenInclude ex settledFiles).length = cur.length :=
        le_antisymm hchosen.length_le hsp.length_le
      rw [selectBatch_eq, if_pos hlen]

/-- Witness of `batch_selection_spec` on a concrete probe: of the settled
files `a`, `b` only `a` exists at the destination, a strict non-empty
subset, so the batch is exactly `Subset [a]`. -/
theorem batch_selection_spec_w :
    selectBatch (fun p => decide (p = ["a"])) [["a"], ["b"]] [["a"], ["b"], ["c"]].length
      = Batch.subset [["a"]] :=
  (batch_selection_spec (fun p => decide (p = ["a"])) [["a"], ["b"]] [["a"], ["b"], ["c"]]
      (by decide) (by decide) (by decide)).1 (by decide) (by decide)

/-- Python slicing `l[:n]` for an integer bound `n`: a non-negative bound
takes that many elements (saturating at the length), a negative bound counts
from the end, clamping at zero. -/
def pyTake (n : Int) (l : List Char) : List Char :=
  if 0 ≤ n then l.take n.toNat else l.take ((l.length : Int) + n).toNat

/-- The per-file body of `truncate_names` (entrypoint.py lines 119-124),
applied to the `os.path.splitext` decomposition of the absolute path into
stem and extension (both as character lists).  If the path is longer than
`MAX_PATH_LENGTH`, the stem is cut to `MAX_PATH_LENGTH - len(ext) - 1`
characters and the extension re-appended; otherwise the path is left as it
is. -/
def truncate_name (maxLen : Int) (stem ext : List Char) : List Char :=
  if ((stem.length + ext.length : Nat) : Int) > maxLen then
    pyTake (maxLen - (ext.length : Int) - 1) stem ++ ext
  else stem ++ ext

/-- Claim C4 as stated is false on the code: for `MAX_PATH_LENGTH = 10` and
the 12-character path `abcdefgh.mp4`, the renamed path has length 9, namely
`MAX_PATH_LENGTH - 1`, not length exactly `MAX_PATH_LENGTH`: the code
reserves one extra character (`- len(ext) - 1`). -/
theorem truncate_claim_cex :
    "abcdefgh".toList.length + ".mp4".toList.length > 10
    ∧ truncate_name 10 "abcdefgh".toList ".mp4".toList = "abcde.mp4".toList
    ∧ (truncate_name 10 "abcdefgh".toList ".mp4".toList).length = 9 := by
  decide

/-- C4 (amended): when the extension is shorter than the configured maximum
`M`, a file whose absolute path length exceeds `M` is renamed to a path of
length exactly `M - 1` ending in the unchanged original extension, and a
file whose path length is at most `M` is left untouched. -/
theorem truncate_name_spec (maxLen : Int) (stem ext : List Char)
    (hext : (ext.length : Int) + 1 ≤ maxLen) :
    (((stem.length + ext.length : Nat) : Int) > maxLen →
        ((truncate_name maxLen stem ext).length : Int) = maxLen - 1
        ∧ ∃ st, truncate_name maxLen stem ext = st ++ ext)
    ∧ (((stem.length + ext.length : Nat) : Int) ≤ maxLen →
        truncate_name maxLen stem ext = stem ++ ext) := by
  constructor
  · intro hlong
    have hn : (0 : Int) ≤ maxLen - (ext.length : Int) - 1 := by omega
    have htrunc : truncate_name maxLen stem ext
        = pyTake (maxLen - (ext.length : Int) - 1) stem ++ ext := by
      unfold truncate_name
      rw [if_pos hlong]
    have htake : pyTake (maxLen - (ext.length : Int) - 1) stem
        = stem.take (maxLen - (ext.length : Int) - 1).toNat := by
      unfold pyTake
      rw [if_pos hn]
    constructor
    · rw [htrunc, htake]
      rw [List.length_append, List.length_take]
      have hcast : ((maxLen - (ext.length : Int) - 1).toNat : Int)
          = maxLen - (ext.length : Int) - 1 := Int.toNat_of_nonneg hn
      have hstem : (maxLen - (ext.length : Int) - 1).toNat ≤ stem.length := by
        push_cast at hlong
        omega
      rw [Nat.min_eq_left hstem]
      push_cast [hcast]
      omega
    · exact ⟨pyTake (maxLen - (ext.length : Int) - 1) stem, htrunc⟩
  · intro hshort
    unfold truncate_name
    rw [if_neg (not_lt_of_le hshort)]

/-- Witness of `truncate_name_spec` at `M = 10` on both a long path
(truncated to length 9, extension kept) and a short one (untouched). -/
theorem truncate_name_spec_w :
    (((("abcdefgh".toList.length + ".mp4".toList.length : Nat) : Int) > 10 →
        ((truncate_name 10 "abcdefgh".toList ".mp4".toList).length : Int) = 10 - 1
        ∧ ∃ st, truncate_name 10 "abcdefgh".toList ".mp4".toList = st ++ ".mp4".toList)
      ∧ ((("abcdefgh".toList.length + ".mp4".toList.length : Nat) : Int) ≤ 10 →
        truncate_name 10 "abcdefgh".toList ".mp4".toList
          = "abcdefgh".toList ++ ".mp4".toList)) :=
  truncate_name_spec 10 "abcdefgh".toList ".mp4".toList (by decide)

/-- A path as handed to `os.path`: whether it is absolute, and its list of
components.  Component lists carry no empty components, matching the
`[x for x in p.split(sep) if x]` filtering inside `posixpath.relpath`. -/
structure PyPath where
  absolute : Bool
  comps : List String
deriving DecidableEq

/-- Modelled from `posixpath.abspath` on component lists: a relative path is
resolved against the process working directory `cwd`, an absolute one is
kept.  (`abspath` also normalises dot components; the inputs handled here
contain none, where normalisation is the identity.) -/
def abspathC (cwd : List String) (p : PyPath) : List String :=
  if p.absolute then p.comps else cwd ++ p.comps

/-- Length of the common component prefix of two paths
(`len(commonprefix([start_list, path_list]))` inside `posixpath.relpath`). -/
def commonPrefixLen : List String → List String → Nat
  | a :: as, b :: bs => if a = b then commonPrefixLen as bs + 1 else 0
  | _, _ => 0

/-- Modelled from `posixpath.relpath(path, start)`: both arguments are made
absolute against the working directory, the common component prefix is
removed, and one `..` is prepended for every remaining `start` component;
an empty result is the current directory `.`. -/
def relpathPy (cwd : List String) (p start : PyPath) : List String :=
  let sa := abspathC cwd start
  let pa := abspathC cwd p
  let i := commonPrefixLen sa pa
  let rel := List.replicate (sa.length - i) ".." ++ pa.drop i
  if rel = [] then ["."] else rel

/-- `refresh_plex` (entrypoint.py lines 168-176): without a configured
`PLEX_PREFIX` it returns before any notifier call (`none`); with one it maps
every path through `os.path.join(PLEX_PREFIX, os.path.relpath(p, SOURCE))`
— `join` with a relative right operand appends — and hands the result to
the notifier (`some` list of scanned paths). -/
def refresh_plex (cwd : List String) (plexPfx : Option (List String))
    (src : PyPath) (paths : List PyPath) : Option (List PathC) :=
  match plexPfx with
  | none => none
  | some pfx => some (paths.map (fun p => pfx ++ relpathPy cwd p src))

lemma commonPrefixLen_append (src r : List String) :
    commonPrefixLen src (src ++ r) = src.length := by
  induction src with
  | nil => rfl
  | cons a t ih => simp [commonPrefixLen, ih]

lemma commonPrefixLen_of_head_ne (l1 l2 : List String)
    (h : l2.head? ≠ l1.head?) : commonPrefixLen l1 l2 = 0 := by
  cases l1 with
  | nil => cases l2 <;> rfl
  | cons a t =>
    cases l2 with
    | nil => rfl
    | cons b u =>
      have hne : a ≠ b := by
        intro hc
        apply h
        simp [hc]
      simp [commonPrefixLen, hne]

/-- `os.path.relpath` on an absolute path strictly beneath the absolute
`start` is the remainder after the root. -/
lemma relpathPy_under (cwd src r : List String) (hr : r ≠ []) :
    relpathPy cwd ⟨true, src ++ r⟩ ⟨true, src⟩ = r := by
  unfold relpathPy abspathC
  simp [commonPrefixLen_append, List.drop_left, hr]

/-- `os.path.relpath` on a relative path whose resolution shares no leading
component with the absolute `start`: climb out of every `start` component,
then descend into `cwd ++ d`. -/
lemma relpathPy_relative (cwd src d : List String) (hsrc : src ≠ [])
    (hhead : (cwd ++ d).head? ≠ src.head?) :
    relpathPy cwd ⟨false, d⟩ ⟨true, src⟩
      = List.replicate src.length ".." ++ (cwd ++ d) := by
  unfold relpathPy abspathC
  have hi : commonPrefixLen src (cwd ++ d) = 0 :=
    commonPrefixLen_of_head_ne _ _ hhead
  have hne : List.replicate src.length ".." ++ (cwd ++ d) ≠ [] := by
    cases src with
    | nil => exact absurd rfl hsrc
    | cons a t => simp [List.replicate]
  simp [hi, hne]

/-- Claim C8 as stated is false on the code: in the Subset branch the dirs
passed to `refresh_plex` are staging-relative (line 219 takes `dirname` of
the already-relative include list), and `os.path.relpath` resolves them
against the process working directory, not against the staging root.  With
working directory `/`, staging root `/staging`, prefix `/plex` and relative
dir `show`, the notifier is asked to rescan `/plex/../show` — not
`/plex/show`, the root-to-prefix substitution the claim describes. -/
theorem refresh_plex_claim_cex :
    refresh_plex [] (some ["plex"]) ⟨true, ["staging"]⟩ [⟨false, ["show"]⟩]
      = some [["plex", "..", "show"]]
    ∧ ["plex", "..", "show"] ≠ (["plex", "show"] : PathC) := by
  constructor
  · rfl
  · decide

/-- C8 (amended): with no library prefix configured the notification step
performs no notifier call at all.  With a prefix, each dir is rescanned as
`prefix ++ os.path.relpath(dir, SOURCE)`: an absolute dir strictly beneath
the staging root (the move-All branch) is mapped to the claimed
root-to-prefix substitution `prefix ++ remainder`, but a staging-relative
dir (the Subset branch), resolved from a working directory outside the
staging root, is mapped to `prefix ++ ['..'] * |SOURCE| ++ cwd ++ dir` —
not a root-to-prefix substitution. -/
theorem refresh_plex_spec (cwd pfx src : List String) (rels : List PathC)
    (d : PathC) (paths : List PyPath) (hsrc : src ≠ [])
    (hrels : ∀ r ∈ rels, r ≠ []) (hhead : (cwd ++ d).head? ≠ src.head?) :
    refresh_plex cwd none ⟨true, src⟩ paths = none
    ∧ refresh_plex cwd (some pfx) ⟨true, src⟩
        (rels.map (fun r => PyPath.mk true (src ++ r)))
      = some (rels.map (fun r => pfx ++ r))
    ∧ refresh_plex cwd (some pfx) ⟨true, src⟩ [⟨false, d⟩]
      = some [pfx ++ (List.replicate src.length ".." ++ (cwd ++ d))] := by
  refine ⟨rfl, ?_, ?_⟩
  · have hdef : refresh_plex cwd (some pfx) ⟨true, src⟩
        (rels.map (fun r => PyPath.mk true (src ++ r)))
      = some ((rels.map (fun r => PyPath.mk true (src ++ r))).map
          (fun p => pfx ++ relpathPy cwd p ⟨true, src⟩)) := rfl
    have hmap : ∀ r ∈ rels,
        ((fun p => pfx ++ relpathPy cwd p ⟨true, src⟩) ∘
          (fun r => PyPath.mk true (src ++ r))) r = pfx ++ r := by
      intro r hr
      simp [Function.comp, relpathPy_under cwd src r (hrels r hr)]
    rw [hdef, List.map_map, List.map_congr_left hmap]
  · simp [refresh_plex, relpathPy_relative cwd src d hsrc hhead]

/-- Witness of `refresh_plex_spec` at working directory `/`, staging root
`/staging`, prefix `/plex`: no prefix means no call; the absolute dir
`/staging/show` is rescanned as `/plex/show`; the relative dir `show` as
`/plex/../show`. -/
theorem refresh_plex_spec_w :
    refresh_plex [] none ⟨true, ["staging"]⟩ [⟨true, ["staging", "show"]⟩] = none
    ∧ refresh_plex [] (some ["plex"]) ⟨true, ["staging"]⟩
        [⟨true, ["staging", "show"]⟩]
      = some [["plex", "show"]]
    ∧ refresh_plex [] (some ["plex"]) ⟨true, ["staging"]⟩ [⟨false, ["show"]⟩]
      = some [["plex", "..", "show"]] :=
  refresh_plex_spec [] ["plex"] ["staging"] [["show"]] ["show"]
    [⟨true, ["staging", "show"]⟩] (by decide) (by decide) (by decide)

/-- Failure of a tree scan: `os.scandir` raising on an unreadable subtree
inside the `get_file_sizes` generator. -/
inductive ScanErr where
  | unreadable (dir : PathC)
deriving DecidableEq

/-- Per-cycle external observations of the orchestrator loop: whether
`glob(f'{SOURCE}/*')` found anything, the result of the tree scan
(`dict(get_file_sizes(SOURCE))`), the destination-existence probe, the
configured plex prefix, and the process working directory (which
`os.path.relpath` consults for relative arguments). -/
structure CycleEnv where
  globNonEmpty : Bool
  scan : Except ScanErr (List (PathC × Nat))
  existsAt : PathC → Bool
  plexPfx : Option (List String)
  cwd : List String

/-- Observable result of one successful loop cycle: the snapshot carried to
the next cycle, the batch passed to `rclone_move` (if any), and the notifier
call made by `refresh_plex` (if any). -/
structure CycleOut where
  prevNext : List (PathC × Nat)
  movedBatch : Option Batch
  plexCall : Option (List PathC)
deriving DecidableEq

/-- One iteration of the main `while True` loop (entrypoint.py lines
182-224): an empty staging dir resets the previous snapshot; a scan
exception propagates (`Except.error`); otherwise the settled set is computed
as relative paths (the snapshot keys are absolute, beneath the absolute
staging root `src`), and if non-empty a batch is selected, moved, and the
parent directories (`dirname`, here `dropLast`, deduplicated as by
`list(set(...))`) are handed to `refresh_plex` — staging-relative dirs in
the Subset branch, absolute snapshot-key dirs in the All branch. -/
def runCycle (src : PathC) (env : CycleEnv) (prevSizes : List (PathC × Nat)) :
    Except ScanErr CycleOut :=
  if env.globNonEmpty = false then
    Except.ok { prevNext := [], movedBatch := none, plexCall := none }
  else
    match env.scan with
    | Except.error e => Except.error e
    | Except.ok newFileSizes =>
      let includeFiles := (settledOf prevSizes newFileSizes).map
        (fun e => relpathPy env.cwd ⟨true, e.1⟩ ⟨true, src⟩)
      if includeFiles.length > 0 then
        let batch := selectBatch env.existsAt includeFiles newFileSizes.length
        let dirSrc : List PyPath :=
          match batch with
          | Batch.all => newFileSizes.map (fun e => PyPath.mk true e.1.dropLast)
          | Batch.subset fs => fs.map (fun p => PyPath.mk false p.dropLast)
        let dirs := dirSrc.dedup
        Except.ok { prevNext := newFileSizes, movedBatch := some batch,
                    plexCall := refresh_plex env.cwd env.plexPfx ⟨true, src⟩ dirs }
      else
        Except.ok { prevNext := newFileSizes, movedBatch := none, plexCall := none }

/-- Outcome of one cycle as seen by the process: the loop continues, or the
`except` handler (entrypoint.py lines 225-229) runs — it joins an in-flight
cleanup thread and then re-raises, terminating the process. -/
inductive ProcOutcome where
  | continues (out : CycleOut)
  | exits (e : ScanErr) (joinedCleanup : Bool)
deriving DecidableEq

/-- The `try`/`except` wrapper around the main loop: any exception escaping
a cycle waits for the cleanup thread (when alive) and is re-raised — the
process exits. -/
def processCycle (src : PathC) (env : CycleEnv) (prev : List (PathC × Nat))
    (cleanupAlive : Bool) : ProcOutcome :=
  match runCycle src env prev with
  | Except.ok out => ProcOutcome.continues out
  | Except.error e => ProcOutcome.exits e cleanupAlive

/-- Environment of a cycle whose tree scan hits an unreadable subtree. -/
def envCex : CycleEnv :=
  { globNonEmpty := true
    scan := Except.error (ScanErr.unreadable ["sub"])
    existsAt := fun _ => false
    plexPfx := none
    cwd := [] }

/-- Claim C5 as stated is false on the code: a failed tree scan is not
retried at the next interval — the exception reaches the outer handler,
which joins any in-flight cleanup and re-raises, so the process exits.
Concretely, a cycle with an unreadable subtree ends in `exits`, not in
`continues`. -/
theorem scan_fatal_cex :
    processCycle ["src"] envCex [] true
      = ProcOutcome.exits (ScanErr.unreadable ["sub"]) true := rfl

/-- C5 (amended): whenever the staging dir is non-empty and the tree scan
fails, the cycle makes no progress and the failure is fatal: the process
joins an in-flight eviction pass and exits with that error — the loop does
not retry. -/
theorem scan_error_fatal (src : PathC) (env : CycleEnv) (prev : List (PathC × Nat))
    (alive : Bool) (e : ScanErr) (hg : env.globNonEmpty = true)
    (hs : env.scan = Except.error e) :
    processCycle src env prev alive = ProcOutcome.exits e alive := by
  simp [processCycle, runCycle, hg, hs]

/-- Witness of `scan_error_fatal` on the concrete failing environment. -/
theorem scan_error_fatal_w :
    processCycle ["src"] envCex [(["src", "f"], 3)] false
      = ProcOutcome.exits (ScanErr.unreadable ["sub"]) false :=
  scan_error_fatal ["src"] envCex [(["src", "f"], 3)] false
    (ScanErr.unreadable ["sub"]) rfl rfl

/-- State of the module-level cleanup thread handle: how many eviction
passes are actually running, and whether the thread stored in
`cleanup_thread` is alive (the condition `cleanup_thread and
cleanup_thread.is_alive()` tested by `cleanup`). -/
structure FlightState where
  running : Nat
  trackedAlive : Bool
deriving DecidableEq

/-- Events touching the cleanup handle: a call to `cleanup()` and the
termination of a running `_cleanup` pass. -/
inductive FlightEvent where
  | request
  | finish
deriving DecidableEq

/-- What `cleanup()` does with a request. -/
inductive CleanupAction where
  | started
  | dropped
deriving DecidableEq

/-- Transition of the cleanup handle (entrypoint.py lines 152-157): a
request while the tracked thread is alive only logs and changes nothing; a
request otherwise starts a fresh pass and stores its thread; a pass
finishing stops being alive. -/
def flightStep (s : FlightState) : FlightEvent → FlightState
  | FlightEvent.request =>
    if s.trackedAlive then s else { running := s.running + 1, trackedAlive := true }
  | FlightEvent.finish =>
    if s.running = 0 then s else { running := s.running - 1, trackedAlive := false }

/-- The action `cleanup()` reports for a request in state `s`. -/
def requestAction (s : FlightState) : CleanupAction :=
  if s.trackedAlive then CleanupAction.dropped else CleanupAction.started

/-- Process start: no pass running, no thread stored. -/
def flightInit : FlightState :=
  { running := 0, trackedAlive := false }

/-- Replay of a sequence of events on the cleanup handle. -/
def runFlight (s : FlightState) (evs : List FlightEvent) : FlightState :=
  evs.foldl flightStep s

/-- Invariant tying the is-alive test to the number of running passes. -/
def FlightInv (s : FlightState) : Prop :=
  s.running ≤ 1 ∧ (s.trackedAlive = true ↔ s.running = 1)

lemma flightStep_inv (s : FlightState) (h : FlightInv s) (e : FlightEvent) :
    FlightInv (flightStep s e) := by
  obtain ⟨h1, h2⟩ := h
  cases e with
  | request =>
    by_cases ht : s.trackedAlive = true
    · simpa [flightStep, ht] using ⟨h1, h2⟩
    · have hz : s.running = 0 := by
        rcases Nat.lt_or_ge s.running 1 with h | h
        · omega
        · exact absurd (h2.mpr (by omega)) ht
      simp [flightStep, ht, FlightInv, hz]
  | finish =>
    by_cases hz : s.running = 0
    · simpa [flightStep, hz] using ⟨h1, h2⟩
    · simp [flightStep, hz, FlightInv]
      omega

lemma runFlight_inv (evs : List FlightEvent) :
    ∀ s : FlightState, FlightInv s → FlightInv (runFlight s evs) := by
  induction evs with
  | nil => intro s h; exact h
  | cons e t ih =>
    intro s h
    exact ih (flightStep s e) (flightStep_inv s h e)

/-- C7: starting from process start, after any sequence of cleanup requests
and pass terminations at most one eviction pass is running; a request made
while the tracked pass is alive is dropped and changes nothing (nothing is
queued); a request made while none is running always starts a new pass. -/
theorem single_flight_spec (evs : List FlightEvent) :
    (runFlight flightInit evs).running ≤ 1
    ∧ (∀ s : FlightState, s.trackedAlive = true →
        requestAction s = CleanupAction.dropped ∧ flightStep s FlightEvent.request = s)
    ∧ (∀ s : FlightState, s.trackedAlive = false →
        requestAction s = CleanupAction.started
        ∧ flightStep s FlightEvent.request
            = { running := s.running + 1, trackedAlive := true }) := by
  refine ⟨?_, ?_, ?_⟩
  · exact (runFlight_inv evs flightInit ⟨by simp [flightInit], by simp [flightInit]⟩).1
  · intro s ht
    exact ⟨by simp [requestAction, ht], by simp [flightStep, ht]⟩
  · intro s ht
    exact ⟨by simp [requestAction, ht], by simp [flightStep, ht]⟩

/-- Witness of `single_flight_spec`: two requests and a finish leave at most
one pass running; a request in a running state is dropped without change; a
request in an idle state starts a pass. -/
theorem single_flight_spec_w :
    (runFlight flightInit [FlightEvent.request, FlightEvent.request, FlightEvent.finish]).running ≤ 1
    ∧ (requestAction { running := 1, trackedAlive := true } = CleanupAction.dropped
        ∧ flightStep { running := 1, trackedAlive := true } FlightEvent.request
            = { running := 1, trackedAlive := true })
    ∧ requestAction { running := 0, trackedAlive := false } = CleanupAction.started :=
  ⟨(single_flight_spec [FlightEvent.request, FlightEvent.request, FlightEvent.finish]).1,
   (single_flight_spec []).2.1 { running := 1, trackedAlive := true } rfl,
   ((single_flight_spec []).2.2 { running := 0, trackedAlive := false } rfl).1⟩

/-- Python truthiness of the optional include list: only a present,
non-empty list is truthy. -/
def truthyList : Option (List String) → Bool
  | some (_ :: _) => true
  | _ => false

/-- `rclone_move` (entrypoint.py lines 63-75): the argument vector and the
stdin payload of the spawned `rclone move`.  `--include-from -` is added and
the newline-joined include list fed on stdin only when `include_files` is
truthy — a present but empty list behaves exactly like `None`. -/
def rclone_move_cmd (extraFlags : List String) (source dest : String)
    (includeFiles : Option (List String)) : List String × Option String :=
  let args0 := ["rclone", "move"] ++ extraFlags ++ ["--progress", "--delete-empty-src-dirs"]
  let args1 := if truthyList includeFiles then args0 ++ ["--include-from", "-"] else args0
  let args2 := args1 ++ [source, dest]
  match includeFiles with
  | some (f :: fs) => (args2, some (String.intercalate "\n" (f :: fs) ++ "\n"))
  | _ => (args2, none)

/-- C9: calling the transfer operation with an empty include list is
indistinguishable from calling it with no include list — same `rclone move`
argument vector (no `--include-from`) and no stdin payload, so the entire
source tree is moved in both cases. -/
theorem rclone_move_empty_include (extraFlags : List String) (source dest : String) :
    rclone_move_cmd extraFlags source dest (some [])
      = rclone_move_cmd extraFlags source dest none := rfl

end RcloneMove
